import Mathlib

/-!
Verification of `generators/app/notebookConverter.js`.

The JavaScript module is shallowly embedded below.  Filesystem access
(`fs.statSync`, `fs.readdirSync`, `fs.readFileSync`) is modelled by an
explicit `FS` value holding association lists from paths to directory
listings and to file contents; each accessor returns `Except String`, the
`error` case standing for a thrown Node error carrying its message string.
`fs.writeFileSync` calls are modelled by recording the `(path, content)`
pairs a run would write, in write order.  String-valued JavaScript
primitives (`path.extname`, `path.basename`, `path.join` on plain
segments, `String.prototype` helpers, `split(/\r?\n/)`) are embedded as
character-list functions, restricted to the ASCII behaviour the inputs of
this module exercise.
-/

set_option autoImplicit false

namespace NotebookConverter

/-! ### Character and string primitives -/

/-- The double-quote character. -/
def dquoteChar : Char := Char.ofNat 34

/-- The single-quote character. -/
def squoteChar : Char := Char.ofNat 39

/-- Model of `String.prototype.toLowerCase` for ASCII data (the only case
exercised: file and chapter names). -/
def toLowerChar (c : Char) : Char :=
  if 'A' ≤ c && c ≤ 'Z' then Char.ofNat (c.toNat + 32) else c

/-- Model of `s.toLowerCase()` (ASCII). -/
def toLowerCase (s : String) : String := ⟨s.data.map toLowerChar⟩

/-- Does `xs` start with `pre`? Helper for substring search. -/
def startsWithCL : List Char → List Char → Bool
  | [], _ => true
  | _ :: _, [] => false
  | a :: as, b :: bs => a == b && startsWithCL as bs

/-- Does `needle` occur as a contiguous run inside the second list?
Model of `hay.indexOf(needle) > -1` / `!== -1` on JavaScript strings. -/
def containsSub (needle : List Char) : List Char → Bool
  | [] => needle.isEmpty
  | c :: rest => startsWithCL needle (c :: rest) || containsSub needle rest

/-- Model of `hay.indexOf(needle) !== -1` for strings. -/
def containsStr (needle hay : String) : Bool := containsSub needle.data hay.data

/-- Index of the last `.` in a character list, if any. -/
def lastIdxOfDot : List Char → Option Nat
  | [] => none
  | c :: rest =>
    match lastIdxOfDot rest with
    | some i => some (i + 1)
    | none => if c == '.' then some 0 else none

/-- Model of Node's `path.extname` restricted to separator-free names (the
arguments here are entries of a directory listing, which contain no `/`).
Node returns the suffix from the last dot, except that a name whose only
dot is its first character (a dotfile) and the name `..` give `""`. -/
def extname (s : String) : String :=
  match lastIdxOfDot s.data with
  | none => ""
  | some i => if i == 0 || s == ".." then "" else ⟨s.data.drop i⟩

/-- Model of Node's `path.basename` for names without a trailing slash:
the part after the last `/`. -/
def basename (s : String) : String :=
  ⟨(s.data.reverse.takeWhile (fun c => c ≠ '/')).reverse⟩

/-- Model of `path.join(a, b)` for a non-empty normalized head segment and
a plain tail segment, which is how the module always calls it. -/
def pathJoin (a b : String) : String := a ++ "/" ++ b

/-- Model of `Array.prototype.join(sep)`. -/
def joinWith (sep : String) : List String → String
  | [] => ""
  | [s] => s
  | s :: rest => s ++ sep ++ joinWith sep rest

/-- Model of `s.slice(0, -k)` on a JavaScript string: drop the last `k`
characters, yielding `""` when the string is shorter than `k`. -/
def jsSliceDropRight (s : String) (k : Nat) : String :=
  ⟨s.data.take (s.data.length - k)⟩

/-- Model of `data.split(/\r?\n/)`: a separator is `\r\n` or a bare `\n`;
a `\r` not followed by `\n` is an ordinary character. `acc` holds the
current line reversed. -/
def splitLinesAux : List Char → List Char → List String
  | [], acc => [⟨acc.reverse⟩]
  | '\r' :: '\n' :: rest, acc => ⟨acc.reverse⟩ :: splitLinesAux rest []
  | '\n' :: rest, acc => ⟨acc.reverse⟩ :: splitLinesAux rest []
  | c :: rest, acc => splitLinesAux rest (c :: acc)

/-- The line list of a file's text, as `data.split(/\r?\n/)` produces it.
Like the JavaScript original it is never empty. -/
def splitLines (s : String) : List String := splitLinesAux s.data []

/-! ### Filesystem model -/

/-- First-match lookup in an association list keyed by strings. -/
def lookupS {α : Type} (p : String) : List (String × α) → Option α
  | [] => none
  | e :: rest => if e.1 = p then some e.2 else lookupS p rest

/-- A snapshot of the parts of the filesystem the module touches:
directories with their listings (in directory-listing order) and regular
files with their text content. -/
structure FS where
  dirs : List (String × List String)
  files : List (String × String)
  deriving DecidableEq

/-- Model of `fs.statSync(p)` followed by `.isDirectory()`: `ok true` for
a directory, `ok false` for a file, and a thrown `ENOENT` error (its
message contains the path, as in Node) when the path does not exist. -/
def FS.statE (fs : FS) (p : String) : Except String Bool :=
  if (lookupS p fs.dirs).isSome then .ok true
  else if (lookupS p fs.files).isSome then .ok false
  else .error ("ENOENT: no such file or directory, stat " ++ p)

/-- Model of `fs.readdirSync(p)`. -/
def FS.readdirE (fs : FS) (p : String) : Except String (List String) :=
  match lookupS p fs.dirs with
  | some l => .ok l
  | none => .error ("ENOENT: no such file or directory, scandir " ++ p)

/-- Model of `fs.readFileSync(p, 'utf-8')`. -/
def FS.readFileE (fs : FS) (p : String) : Except String String :=
  match lookupS p fs.files with
  | some c => .ok c
  | none =>
    if (lookupS p fs.dirs).isSome then
      .error ("EISDIR: illegal operation on a directory, read " ++ p)
    else .error ("ENOENT: no such file or directory, open " ++ p)

/-- The listing an `FS` gives for `p`, with `[]` for the error case; used
only to state decidable hypotheses about a filesystem. -/
def listingOf (fs : FS) (p : String) : List String :=
  match fs.readdirE p with
  | .ok l => l
  | .error _ => []

/-! ### The notebook registry (`generator.extensionConfig`) -/

/-- The three parallel sequences of `generator.extensionConfig` that the
module appends to. -/
structure ExtensionConfig where
  notebookNames : List String
  notebookPaths : List String
  notebookFolders : List String
  deriving DecidableEq

/-! ### Folder scanning (`getFolderContent`, `findNotebookFiles`,
`discoverFoldersContainingNotebooks`, `processNotebookFolder`,
`processBookFolder`) -/

/-- The `try` body of `getFolderContent`: `statSync`, then `readdirSync`
when the path is a directory, `[]` when it exists but is not one. -/
def getFolderContentCore (fs : FS) (folderPath : String) : Except String (List String) :=
  match fs.statE folderPath with
  | .error m => .error m
  | .ok isDir => if isDir then fs.readdirE folderPath else .ok []

/-- Embedding of `getFolderContent(folderPath, errors)` with a caller-supplied error
collector: a thrown error is caught and downgraded to a pushed string. -/
def getFolderContent (fs : FS) (folderPath : String) (errors : List String) :
    List String × List String :=
  match getFolderContentCore fs folderPath with
  | .ok files => (files, errors)
  | .error m => ([], errors ++ ["Unable to access " ++ folderPath ++ ": " ++ m])

/-- Embedding of `getFolderContent(rootFolder)` as `discoverFoldersContainingNotebooks`
calls it, with the `errors` argument left `undefined`: when the `try` body
throws, the `catch` block's `errors.push(...)` itself throws a
`TypeError`, which escapes to the caller. -/
def getFolderContentNoCollector (fs : FS) (folderPath : String) : Except String (List String) :=
  match getFolderContentCore fs folderPath with
  | .ok files => .ok files
  | .error _ => .error "Cannot read properties of undefined (reading push)"

/-- Is this entry counted by `findNotebookFiles`?  The extension is
lowercased before comparison against `.ipynb` and `.md`. -/
def isNotebookExtension (fileName : String) : Bool :=
  let extension := toLowerCase (extname fileName)
  extension == ".ipynb" || extension == ".md"

/-- The `files.forEach` loop of `findNotebookFiles`.  The loop body's
`try`/`catch` is dead in the embedding: extension tests, `path.join` and
the two pushes cannot throw. -/
def findNotebookFilesGo (folderPath : String) :
    List String → Nat → ExtensionConfig → Nat × ExtensionConfig
  | [], count, cfg => (count, cfg)
  | fileName :: rest, count, cfg =>
    if isNotebookExtension fileName then
      findNotebookFilesGo folderPath rest (count + 1)
        { cfg with
          notebookNames := cfg.notebookNames ++ [fileName],
          notebookPaths := cfg.notebookPaths ++ [pathJoin folderPath fileName] }
    else
      findNotebookFilesGo folderPath rest count cfg

/-- Embedding of `findNotebookFiles(folderPath, errors, generator)`: list the folder
(collecting errors), then classify every entry, pushing matches onto the
registry.  Returns the match count, the error collector and the registry. -/
def findNotebookFiles (fs : FS) (folderPath : String) (errors : List String)
    (cfg : ExtensionConfig) : Nat × List String × ExtensionConfig :=
  let scan := getFolderContent fs folderPath errors
  let counted := findNotebookFilesGo folderPath scan.1 0 cfg
  (counted.1, scan.2, counted.2)

/-- The `subfolders.forEach` loop of `discoverFoldersContainingNotebooks`:
scan each subfolder, accumulate the total and record the folder name. -/
def discoverGo (fs : FS) (rootFolder : String) :
    List String → Nat → List String → ExtensionConfig → Nat × List String × ExtensionConfig
  | [], total, errors, cfg => (total, errors, cfg)
  | dir :: rest, total, errors, cfg =>
    let dirPath := pathJoin rootFolder dir
    let found := findNotebookFiles fs dirPath errors cfg
    discoverGo fs rootFolder rest (total + found.1) found.2.1
      { found.2.2 with notebookFolders := found.2.2.notebookFolders ++ [dir] }

/-- Embedding of `discoverFoldersContainingNotebooks(rootFolder, errors, generator)`.
The root listing is taken without an error collector, so its failure
throws (see `getFolderContentNoCollector`); that throw happens before any
registry mutation. -/
def discoverFoldersContainingNotebooks (fs : FS) (rootFolder : String)
    (errors : List String) (cfg : ExtensionConfig) :
    Except String (Nat × List String × ExtensionConfig) :=
  match getFolderContentNoCollector fs rootFolder with
  | .error m => .error m
  | .ok subfolders => .ok (discoverGo fs rootFolder subfolders 0 errors cfg)

/-- Embedding of `processNotebookFolder(folderPath, generator)`: one scan, then a log
line; returns the count.  `os.EOL` is modelled as `"\n"` (Linux). -/
def processNotebookFolder (fs : FS) (folderPath : String) (cfg : ExtensionConfig) :
    Nat × List String × ExtensionConfig :=
  let scanned := findNotebookFiles fs folderPath [] cfg
  let count := scanned.1
  let errors := scanned.2.1
  if count = 0 then
    (count,
     ["No valid notebooks found in " ++ folderPath ++
        (if errors.length > 0 then ".\n" ++ joinWith "\n" errors else "")],
     scanned.2.2)
  else
    (count,
     [toString count ++ " notebook(s) found." ++
        (if errors.length > 0 then "\n\nProblems while converting: \n" ++ joinWith "\n" errors else "")],
     scanned.2.2)

/-- Embedding of `processBookFolder(folderPath, generator)`: log, book-wide scan, log,
return the count; a throw from the scan is caught, logged, and the
function falls off its end, returning `undefined` (here `none`).  The
first log's error suffix is dead: `errors` is freshly `[]` there.  The
only throw site is the root listing, which precedes every registry
mutation, so the registry is unchanged on the catch path. -/
def processBookFolder (fs : FS) (folderPath : String) (cfg : ExtensionConfig) :
    Option Nat × List String × ExtensionConfig :=
  match discoverFoldersContainingNotebooks fs folderPath [] cfg with
  | .ok (count, errors, cfg') =>
    (some count,
     ["Jupyter Book found!",
      toString count ++ " notebook(s) found! " ++
        (if errors.length > 0 then "\n\nProblems while converting: \n" ++ joinWith "\n" errors else "")],
     cfg')
  | .error m =>
    (none, ["Jupyter Book found!", "An unexpected error occurred: " ++ m], cfg)

/-! ### Basic lemmas about the scan -/

/-- Closed form of the classification loop: it counts exactly the entries
whose extension matches, and appends those entries (and their joined
paths, in order) to the registry. -/
theorem findNotebookFilesGo_eq (folderPath : String) (files : List String)
    (count : Nat) (cfg : ExtensionConfig) :
    findNotebookFilesGo folderPath files count cfg =
      (count + (files.filter isNotebookExtension).length,
       { cfg with
         notebookNames := cfg.notebookNames ++ files.filter isNotebookExtension,
         notebookPaths := cfg.notebookPaths ++
           (files.filter isNotebookExtension).map (pathJoin folderPath) }) := by
  induction files generalizing count cfg with
  | nil => simp [findNotebookFilesGo]
  | cons f rest ih =>
    by_cases h : isNotebookExtension f
    · simp [findNotebookFilesGo, h, ih, List.filter_cons]
      omega
    · simp [findNotebookFilesGo, h, ih, List.filter_cons]

/-- Data of a string concatenation. -/
theorem data_append (a b : String) : (a ++ b).data = a.data ++ b.data := by
  cases a; cases b; rfl

/-- A list starts with itself. -/
theorem startsWithCL_append (xs r : List Char) : startsWithCL xs (xs ++ r) = true := by
  induction xs with
  | nil => rfl
  | cons a as ih => simp [startsWithCL, ih]

/-- Substring search succeeds anywhere in the tail. -/
theorem containsSub_append_left (pre n rest : List Char) (h : containsSub n rest = true) :
    containsSub n (pre ++ rest) = true := by
  induction pre with
  | nil => simpa using h
  | cons c cs ih => simp [containsSub, ih]

/-- A list contains itself followed by anything. -/
theorem containsSub_self_append (n post : List Char) : containsSub n (n ++ post) = true := by
  cases n with
  | nil =>
    cases post with
    | nil => rfl
    | cons c cs =>
      simp only [containsSub, List.nil_append, Bool.or_eq_true]
      exact Or.inl rfl
  | cons m ms =>
    simp only [containsSub, List.cons_append, Bool.or_eq_true]
    exact Or.inl (startsWithCL_append (m :: ms) post)

/-- Associativity of string concatenation, via the underlying data. -/
theorem string_append_assoc (a b c : String) : a ++ b ++ c = a ++ (b ++ c) :=
  String.ext (by simp [data_append, List.append_assoc])

/-- A string occurs inside any concatenation that embeds it. -/
theorem containsStr_append (pre s post : String) :
    containsStr s (pre ++ s ++ post) = true := by
  unfold containsStr
  rw [data_append, data_append, List.append_assoc]
  exact containsSub_append_left pre.data s.data (s.data ++ post.data)
    (containsSub_self_append s.data post.data)

/-- The count a single-folder scan of `dirPath` produces, read off the
filesystem: the number of matching entries of its listing when the `try`
body of `getFolderContent` succeeds, `0` otherwise. -/
def scanCount (fs : FS) (dirPath : String) : Nat :=
  match getFolderContentCore fs dirPath with
  | .ok fls => (fls.filter isNotebookExtension).length
  | .error _ => 0

/-- The count returned by `findNotebookFiles` is `scanCount`. -/
theorem findNotebookFiles_fst (fs : FS) (p : String) (errors : List String)
    (cfg : ExtensionConfig) : (findNotebookFiles fs p errors cfg).1 = scanCount fs p := by
  unfold findNotebookFiles getFolderContent scanCount
  cases getFolderContentCore fs p <;> simp [findNotebookFilesGo_eq]

/-- The classification loop never fails and never skips an entry: its
count is the matching-entry count of the whole listing. -/
theorem findNotebookFiles_count (fs : FS) (p : String) (errors : List String)
    (cfg : ExtensionConfig) (files : List String)
    (h : getFolderContentCore fs p = .ok files) :
    (findNotebookFiles fs p errors cfg).1 = (files.filter isNotebookExtension).length := by
  rw [findNotebookFiles_fst]
  unfold scanCount
  rw [h]

/-- Closed form of the accumulated total of the book-wide scan loop. -/
theorem discoverGo_fst (fs : FS) (root : String) (subs : List String) :
    ∀ (total : Nat) (errors : List String) (cfg : ExtensionConfig),
      (discoverGo fs root subs total errors cfg).1 =
        total + (subs.map (fun d => scanCount fs (pathJoin root d))).sum := by
  induction subs with
  | nil => intro total errors cfg; simp [discoverGo]
  | cons d rest ih =>
    intro total errors cfg
    simp [discoverGo, ih, findNotebookFiles_fst]
    omega

/-- The scan `findNotebookFiles` pushes the same number of names and paths. -/
theorem findNotebookFiles_preserves (fs : FS) (p : String) (errors : List String)
    (cfg : ExtensionConfig) (h : cfg.notebookNames.length = cfg.notebookPaths.length) :
    (findNotebookFiles fs p errors cfg).2.2.notebookNames.length =
      (findNotebookFiles fs p errors cfg).2.2.notebookPaths.length := by
  unfold findNotebookFiles
  simp [findNotebookFilesGo_eq, h]

/-- The book-wide loop preserves the parallel-length invariant. -/
theorem discoverGo_preserves (fs : FS) (root : String) (subs : List String) :
    ∀ (total : Nat) (errors : List String) (cfg : ExtensionConfig),
      cfg.notebookNames.length = cfg.notebookPaths.length →
      (discoverGo fs root subs total errors cfg).2.2.notebookNames.length =
        (discoverGo fs root subs total errors cfg).2.2.notebookPaths.length := by
  induction subs with
  | nil => intro total errors cfg h; simpa [discoverGo] using h
  | cons d rest ih =>
    intro total errors cfg h
    simp only [discoverGo]
    exact ih _ _ _ (findNotebookFiles_preserves fs (pathJoin root d) errors cfg h)

/-! ### Claims about the scanning side -/

/-- C1: for a folder whose listing succeeds, `findNotebookFiles` returns
exactly the number of entries with a `.ipynb`/`.md` extension
(case-insensitively), appends exactly those entries to `notebookNames`
and their joined paths to `notebookPaths`, in listing order and with
matching indices, and leaves the error collector unchanged. -/
theorem claim_C1 (fs : FS) (folderPath : String) (errors : List String)
    (cfg : ExtensionConfig) (files : List String)
    (h : getFolderContentCore fs folderPath = .ok files) :
    findNotebookFiles fs folderPath errors cfg =
      ((files.filter isNotebookExtension).length, errors,
       { cfg with
         notebookNames := cfg.notebookNames ++ files.filter isNotebookExtension,
         notebookPaths := cfg.notebookPaths ++
           (files.filter isNotebookExtension).map (pathJoin folderPath) }) := by
  unfold findNotebookFiles getFolderContent
  rw [h]
  simp [findNotebookFilesGo_eq]

/-- Concrete instance of C1: a listing with two matching entries (one of
them `.MD`, matched case-insensitively) and two non-matching ones. -/
def fsScan : FS :=
  { dirs := [("/nb", ["a.ipynb", "notes.txt", "B.MD", "README"])], files := [] }

/-- Witness for C1 at a concrete folder. -/
theorem claim_C1_witness :
    getFolderContentCore fsScan "/nb" = .ok ["a.ipynb", "notes.txt", "B.MD", "README"] ∧
    findNotebookFiles fsScan "/nb" [] ⟨[], [], []⟩ =
      (2, [], ⟨["a.ipynb", "B.MD"], ["/nb/a.ipynb", "/nb/B.MD"], []⟩) :=
  ⟨rfl,
   (claim_C1 fsScan "/nb" [] ⟨[], [], []⟩ ["a.ipynb", "notes.txt", "B.MD", "README"]
      rfl).trans (by decide)⟩

/-- A filesystem holding a single regular file, no directories. -/
def fsPlainFile : FS := { dirs := [], files := [("/home/user/notes.txt", "text")] }

/-- Counterexample to C2 as stated: `/home/user/notes.txt` exists and is
not a directory, so the claim's "otherwise" branch demands exactly one
appended error string, but `getFolderContent` returns the empty listing
without appending anything. -/
theorem claim_C2_counterexample :
    FS.statE fsPlainFile "/home/user/notes.txt" = .ok false ∧
    getFolderContent fsPlainFile "/home/user/notes.txt" [] = ([], []) ∧
    ¬ (getFolderContent fsPlainFile "/home/user/notes.txt" []).2.length = 1 :=
  ⟨rfl, rfl, by decide⟩

/-- C2 (amended): `getFolderContent` returns the listing when the path is
a directory; returns an empty listing and appends nothing when the path
exists but is not a directory; and when the underlying stat/readdir
throws it returns an empty listing and appends exactly one error string
containing the path.  It never raises when a collector is supplied (the
embedding is total), and a scan of a non-existent path yields zero
matches and exactly that one error string. -/
theorem claim_C2 (fs : FS) (p : String) (errors : List String) (cfg : ExtensionConfig) :
    (∀ l, fs.statE p = .ok true → fs.readdirE p = .ok l →
      getFolderContent fs p errors = (l, errors)) ∧
    (fs.statE p = .ok false → getFolderContent fs p errors = ([], errors)) ∧
    (∀ m, getFolderContentCore fs p = .error m →
      getFolderContent fs p errors =
        ([], errors ++ ["Unable to access " ++ p ++ ": " ++ m]) ∧
      containsStr p ("Unable to access " ++ p ++ ": " ++ m) = true) ∧
    (∀ m, fs.statE p = .error m →
      (findNotebookFiles fs p errors cfg).1 = 0 ∧
      (findNotebookFiles fs p errors cfg).2.1 =
        errors ++ ["Unable to access " ++ p ++ ": " ++ m]) := by
  refine ⟨?_, ?_, ?_, ?_⟩
  · intro l hstat hdir
    unfold getFolderContent getFolderContentCore
    rw [hstat]
    simp [hdir]
  · intro hstat
    unfold getFolderContent getFolderContentCore
    rw [hstat]
    simp
  · intro m hcore
    refine ⟨?_, ?_⟩
    · unfold getFolderContent
      rw [hcore]
    · rw [string_append_assoc ("Unable to access " ++ p) ": " m]
      exact containsStr_append "Unable to access " p (": " ++ m)
  · intro m hstat
    have hcore : getFolderContentCore fs p = .error m := by
      unfold getFolderContentCore
      rw [hstat]
    constructor
    · rw [findNotebookFiles_fst]
      unfold scanCount
      rw [hcore]
    · unfold findNotebookFiles getFolderContent
      rw [hcore]

/-- Witness for C2 (amended), exercising the directory, plain-file and
missing-path branches on concrete filesystems. -/
theorem claim_C2_witness :
    getFolderContent fsScan "/nb" [] = (["a.ipynb", "notes.txt", "B.MD", "README"], []) ∧
    getFolderContent fsPlainFile "/home/user/notes.txt" [] = ([], []) ∧
    (findNotebookFiles fsPlainFile "/missing" [] ⟨[], [], []⟩).1 = 0 ∧
    (findNotebookFiles fsPlainFile "/missing" [] ⟨[], [], []⟩).2.1 =
      ["Unable to access /missing: ENOENT: no such file or directory, stat /missing"] :=
  ⟨(claim_C2 fsScan "/nb" [] ⟨[], [], []⟩).1 _ rfl rfl,
   (claim_C2 fsPlainFile "/home/user/notes.txt" [] ⟨[], [], []⟩).2.1 rfl,
   ((claim_C2 fsPlainFile "/missing" [] ⟨[], [], []⟩).2.2.2 _ rfl).1,
   (((claim_C2 fsPlainFile "/missing" [] ⟨[], [], []⟩).2.2.2 _ rfl).2).trans (by decide)⟩

/-- C7: a failing root listing is caught by `processBookFolder`, logged,
and turns the return value into `none` (JavaScript `undefined`); a
successful listing yields the sum of the per-subfolder counts; and the
single-folder scan always classifies every entry of its listing (a
failure on one entry never halts its siblings — in the embedding the
per-entry `catch` is unreachable, so the count covers the whole listing). -/
theorem claim_C7 (fs : FS) (p : String) (cfg : ExtensionConfig) :
    (∀ m, getFolderContentCore fs p = .error m →
      (processBookFolder fs p cfg).1 = none ∧
      (processBookFolder fs p cfg).2.1 =
        ["Jupyter Book found!",
         "An unexpected error occurred: Cannot read properties of undefined (reading push)"] ∧
      (processBookFolder fs p cfg).2.2 = cfg) ∧
    (∀ L, getFolderContentCore fs p = .ok L →
      (processBookFolder fs p cfg).1 =
        some ((L.map (fun d => scanCount fs (pathJoin p d))).sum)) ∧
    (∀ (errors : List String) (files : List String),
      getFolderContentCore fs p = .ok files →
      (findNotebookFiles fs p errors cfg).1 =
        (files.filter isNotebookExtension).length) := by
  refine ⟨?_, ?_, ?_⟩
  · intro m hcore
    unfold processBookFolder discoverFoldersContainingNotebooks getFolderContentNoCollector
    rw [hcore]
    exact ⟨rfl, rfl, rfl⟩
  · intro L hcore
    unfold processBookFolder discoverFoldersContainingNotebooks getFolderContentNoCollector
    rw [hcore]
    simp [discoverGo_fst]
  · intro errors files hcore
    exact findNotebookFiles_count fs p errors cfg files hcore

/-- Witness for C7: a missing root folder produces the `none` return and
the log line; the concrete book of `fsScan` has no subfolders at the
root, and a two-subfolder book sums the counts. -/
def fsBookScan : FS :=
  { dirs := [("/book", ["chA", "chB", "loose.md"]),
             ("/book/chA", ["one.ipynb", "two.md", "skip.txt"]),
             ("/book/chB", ["three.IPYNB"])],
    files := [("/book/loose.md", "# Loose")] }

/-- Witness for C7 at concrete filesystems. -/
theorem claim_C7_witness :
    (processBookFolder fsPlainFile "/missing" ⟨[], [], []⟩).1 = none ∧
    (processBookFolder fsBookScan "/book" ⟨[], [], []⟩).1 = some 3 ∧
    (findNotebookFiles fsBookScan "/book/chA" [] ⟨[], [], []⟩).1 = 2 :=
  ⟨((claim_C7 fsPlainFile "/missing" ⟨[], [], []⟩).1
      "ENOENT: no such file or directory, stat /missing" rfl).1,
   ((claim_C7 fsBookScan "/book" ⟨[], [], []⟩).2.1
      ["chA", "chB", "loose.md"] rfl).trans (by decide),
   ((claim_C7 fsBookScan "/book/chA" ⟨[], [], []⟩).2.2 []
      ["one.ipynb", "two.md", "skip.txt"] rfl).trans (by decide)⟩

/-- C9: every operation of the module preserves the registry invariant
that `notebookNames` and `notebookPaths` have equal length. -/
theorem claim_C9 (fs : FS) (p : String) (errors : List String) (cfg : ExtensionConfig)
    (h : cfg.notebookNames.length = cfg.notebookPaths.length) :
    ((findNotebookFiles fs p errors cfg).2.2.notebookNames.length =
      (findNotebookFiles fs p errors cfg).2.2.notebookPaths.length) ∧
    ((processNotebookFolder fs p cfg).2.2.notebookNames.length =
      (processNotebookFolder fs p cfg).2.2.notebookPaths.length) ∧
    ((processBookFolder fs p cfg).2.2.notebookNames.length =
      (processBookFolder fs p cfg).2.2.notebookPaths.length) := by
  refine ⟨findNotebookFiles_preserves fs p errors cfg h, ?_, ?_⟩
  · unfold processNotebookFolder
    by_cases hc : (findNotebookFiles fs p [] cfg).1 = 0 <;>
      simp [hc, findNotebookFiles_preserves fs p [] cfg h]
  · unfold processBookFolder
    unfold discoverFoldersContainingNotebooks
    cases hg : getFolderContentNoCollector fs p with
    | error m => simpa using h
    | ok subs => simpa using discoverGo_preserves fs p subs 0 [] cfg h

/-- Witness for C9 at a concrete filesystem and registry. -/
theorem claim_C9_witness :
    (findNotebookFiles fsBookScan "/book/chA" [] ⟨["x.md"], ["/old/x.md"], []⟩).2.2.notebookNames.length =
      (findNotebookFiles fsBookScan "/book/chA" [] ⟨["x.md"], ["/old/x.md"], []⟩).2.2.notebookPaths.length ∧
    (processBookFolder fsBookScan "/book" ⟨["x.md"], ["/old/x.md"], []⟩).2.2.notebookNames.length =
      (processBookFolder fsBookScan "/book" ⟨["x.md"], ["/old/x.md"], []⟩).2.2.notebookPaths.length :=
  ⟨(claim_C9 fsBookScan "/book/chA" [] ⟨["x.md"], ["/old/x.md"], []⟩ rfl).1,
   (claim_C9 fsBookScan "/book" [] ⟨["x.md"], ["/old/x.md"], []⟩ rfl).2.2⟩

/-! ### Title extraction (`findTitle`) and filename slicing
(`getSlicedFilename`) -/

/-- The characters removed by `replace(/[:#"',]/g, '')`. -/
def strippedChars : List Char := [':', '#', dquoteChar, squoteChar, ',']

/-- Model of `replace(/\\n/g, '')`: remove every literal backslash-`n`
two-character sequence. -/
def removeBackslashN : List Char → List Char
  | [] => []
  | '\\' :: 'n' :: rest => removeBackslashN rest
  | c :: rest => c :: removeBackslashN rest

/-- The whitespace characters `String.prototype.trim` removes, restricted
to ASCII (JavaScript also trims Unicode space characters). -/
def isSpaceChar (c : Char) : Bool :=
  c == ' ' || c == '\t' || c == '\n' || c == '\r' || c == Char.ofNat 11 || c == Char.ofNat 12

/-- Model of `s.trim()` on character lists. -/
def trimCL (cs : List Char) : List Char :=
  ((cs.dropWhile isSpaceChar).reverse.dropWhile isSpaceChar).reverse

/-- The stripping pipeline `findTitle` applies to its chosen line: remove
`: # " ' ,`, then literal `\n` pairs, then trim surrounding whitespace. -/
def stripTitle (line : String) : String :=
  ⟨trimCL (removeBackslashN (line.data.filter (fun c => !strippedChars.contains c)))⟩

/-- The outcome of `findTitle`: a string, JavaScript `undefined` (the
fall-through for other extensions), or a thrown `TypeError` (the
unguarded `lines[6]` access on a short notebook file). -/
inductive TitleResult where
  | title (t : String)
  | jsUndefined
  | typeError
  deriving DecidableEq

/-- Embedding of `findTitle(file, filePath)` after the file's text has been read:
`Untitled` when the first line is empty or a line at index 6 exists and
contains `collapsed`; otherwise the stripped line 6 for `.ipynb`, the
stripped line 0 for `.md` (extension compared case-sensitively here), and
`undefined` for anything else.  On the `.ipynb` branch `lines[6]` is
unguarded: when it is absent, `undefined.replace` throws. -/
def findTitle (file : String) (content : String) : TitleResult :=
  let lines := splitLines content
  if (lines.headD "" == "") ||
      (decide (7 ≤ lines.length) && containsStr "collapsed" ((lines.get? 6).getD "")) then
    .title "Untitled"
  else if extname file == ".ipynb" then
    match lines.get? 6 with
    | none => .typeError
    | some l => .title (stripTitle l)
  else if extname file == ".md" then
    .title (stripTitle (lines.headD ""))
  else .jsUndefined

/-- Embedding of `getSlicedFilename(fileName)`: drop a fixed-length suffix — the last
6 characters when the extension is `.ipynb`, the last 3 otherwise. -/
def getSlicedFilename (fileName : String) : String :=
  if extname fileName == ".ipynb" then jsSliceDropRight fileName 6
  else jsSliceDropRight fileName 3

/-- The guard condition of `findTitle` as a standalone Boolean. -/
def untitledCond (content : String) : Bool :=
  (splitLines content).headD "" == "" ||
    (decide (7 ≤ (splitLines content).length) &&
      containsStr "collapsed" (((splitLines content).get? 6).getD ""))

/-- Unfolding of `findTitle` with its guard condition abstracted. -/
theorem findTitle_eq (file content : String) :
    findTitle file content =
      (if untitledCond content then TitleResult.title "Untitled"
       else if extname file == ".ipynb" then
         match (splitLines content).get? 6 with
         | none => TitleResult.typeError
         | some l => TitleResult.title (stripTitle l)
       else if extname file == ".md" then
         TitleResult.title (stripTitle ((splitLines content).headD ""))
       else TitleResult.jsUndefined) := rfl

/-- A true guard makes the title `Untitled`. -/
theorem findTitle_of_cond_true (file content : String) (h : untitledCond content = true) :
    findTitle file content = .title "Untitled" := by
  rw [findTitle_eq, h, if_pos rfl]

/-- A false guard selects the per-extension branch. -/
theorem findTitle_of_cond_false (file content : String) (h : untitledCond content = false) :
    findTitle file content =
      (if extname file == ".ipynb" then
        match (splitLines content).get? 6 with
        | none => TitleResult.typeError
        | some l => TitleResult.title (stripTitle l)
      else if extname file == ".md" then
        TitleResult.title (stripTitle ((splitLines content).headD ""))
      else TitleResult.jsUndefined) := by
  rw [findTitle_eq, h]
  simp

/-! ### Claims about title extraction and slicing -/

/-- A notebook-like text whose 7th line (index 6) contains
`"collapsed": true`. -/
def collapsedNotebookText : String :=
  "line0\nline1\nline2\nline3\nline4\nline5\n    \"collapsed\": true,\nline7"

/-- C3: `findTitle` returns the literal `Untitled` whenever the first
line is empty, or whenever a line at index 6 exists and contains the
substring `collapsed`; in particular a notebook input whose 7th line
contains `"collapsed": true` yields `Untitled` regardless of the rest. -/
theorem claim_C3 :
    (∀ file content, (splitLines content).headD "" = "" →
      findTitle file content = .title "Untitled") ∧
    (∀ file content l, (splitLines content).get? 6 = some l →
      containsStr "collapsed" l = true →
      findTitle file content = .title "Untitled") ∧
    findTitle "cells.ipynb" collapsedNotebookText = .title "Untitled" := by
  refine ⟨?_, ?_, by decide⟩
  · intro file content h
    simp only [findTitle]
    rw [h]
    simp
  · intro file content l h1 h2
    have hlen : 7 ≤ (splitLines content).length := by
      have := (List.get?_eq_some.mp h1).1
      omega
    simp only [findTitle]
    rw [h1]
    simp [h2, decide_eq_true hlen]

/-- Witness for C3: an empty file and a seven-line notebook text. -/
theorem claim_C3_witness :
    findTitle "a.md" "" = .title "Untitled" ∧
    findTitle "nb.ipynb" collapsedNotebookText = .title "Untitled" :=
  ⟨claim_C3.1 "a.md" "" rfl,
   claim_C3.2.1 "nb.ipynb" collapsedNotebookText "    \"collapsed\": true," rfl rfl⟩

/-- C4: away from the `Untitled` conditions, `findTitle` takes line
index 6 for `.ipynb` files and line index 0 for `.md` files and applies
the stripping pipeline (remove `: # " ' ,`, remove literal backslash-n
pairs, trim); in particular a markdown file whose first line is
`# Hello World` titles as `Hello World`. -/
theorem claim_C4 :
    (∀ file content l, extname file = ".ipynb" →
      (splitLines content).headD "" ≠ "" →
      (splitLines content).get? 6 = some l →
      containsStr "collapsed" l = false →
      findTitle file content = .title (stripTitle l)) ∧
    (∀ file content, extname file = ".md" →
      (splitLines content).headD "" ≠ "" →
      containsStr "collapsed" (((splitLines content).get? 6).getD "") = false →
      findTitle file content = .title (stripTitle ((splitLines content).headD ""))) ∧
    findTitle "hello.md" "# Hello World" = .title "Hello World" := by
  refine ⟨?_, ?_, by decide⟩
  · intro file content l hext hhead h6 hcol
    have hcond : untitledCond content = false := by
      unfold untitledCond
      rw [h6, Option.getD_some, hcol, Bool.and_false, Bool.or_false,
        beq_eq_false_iff_ne.mpr hhead]
    rw [findTitle_of_cond_false file content hcond, hext, h6]
    rfl
  · intro file content hext hhead hcol
    have hcond : untitledCond content = false := by
      unfold untitledCond
      rw [hcol, Bool.and_false, Bool.or_false, beq_eq_false_iff_ne.mpr hhead]
    rw [findTitle_of_cond_false file content hcond, hext]
    rfl

/-- An eight-line notebook text whose 7th line mimics a serialized title
cell, exercising every stage of the stripping pipeline. -/
def notebookTitleText : String :=
  "line0\nline1\nline2\nline3\nline4\nline5\n   \"source\": \"# My, Title:\\n\"\nline7"

/-- Witness for C4: the notebook branch on a concrete 8-line text and the
markdown branch on `# Hello World`. -/
theorem claim_C4_witness :
    findTitle "nb.ipynb" notebookTitleText =
      .title (stripTitle "   \"source\": \"# My, Title:\\n\"") ∧
    stripTitle "   \"source\": \"# My, Title:\\n\"" = "source  My Title" ∧
    findTitle "first.md" "# Hello World" =
      .title (stripTitle ((splitLines "# Hello World").headD "")) :=
  ⟨claim_C4.1 "nb.ipynb" notebookTitleText "   \"source\": \"# My, Title:\\n\"" rfl
      (by decide) rfl rfl,
   by decide,
   claim_C4.2.1 "first.md" "# Hello World" rfl (by decide) rfl⟩

/-- C6: the TOC url filename strip is a fixed-length suffix drop — the
last 6 characters for an `.ipynb` extension, the last 3 for `.md`. -/
theorem claim_C6 (s : String) :
    (extname s = ".ipynb" → (getSlicedFilename s).data = s.data.take (s.data.length - 6)) ∧
    (extname s = ".md" → (getSlicedFilename s).data = s.data.take (s.data.length - 3)) := by
  constructor
  · intro h
    simp [getSlicedFilename, h, jsSliceDropRight]
  · intro h
    simp [getSlicedFilename, h, jsSliceDropRight]

/-- Witness for C6 on concrete filenames of both extensions. -/
theorem claim_C6_witness :
    (getSlicedFilename "a.ipynb").data = ("a.ipynb" : String).data.take 1 ∧
    (getSlicedFilename "intro.md").data = ("intro.md" : String).data.take 5 :=
  ⟨((claim_C6 "a.ipynb").1 rfl).trans (by decide),
   ((claim_C6 "intro.md").2 rfl).trans (by decide)⟩

/-- C10: the `.ipynb` branch of `findTitle` is unguarded at `lines[6]`:
for a notebook file with a non-empty first line and fewer than 7 lines
the thrown-`TypeError` branch is reached, and with at least 7 lines the
extraction always produces a title. -/
theorem claim_C10 :
    (∀ file content, extname file = ".ipynb" →
      (splitLines content).headD "" ≠ "" →
      (splitLines content).length < 7 →
      findTitle file content = .typeError) ∧
    (∀ file content, extname file = ".ipynb" →
      7 ≤ (splitLines content).length →
      ∃ t, findTitle file content = .title t) := by
  constructor
  · intro file content hext hhead hlen
    have h6 : (splitLines content).get? 6 = none := List.get?_eq_none.mpr (by omega)
    have hcond : untitledCond content = false := by
      unfold untitledCond
      rw [h6, Option.getD_none,
        decide_eq_false (by omega : ¬ 7 ≤ (splitLines content).length),
        Bool.false_and, Bool.or_false, beq_eq_false_iff_ne.mpr hhead]
    rw [findTitle_of_cond_false file content hcond, hext, h6]
    rfl
  · intro file content hext hlen
    obtain ⟨l, hl⟩ : ∃ l, (splitLines content).get? 6 = some l := by
      cases h : (splitLines content).get? 6 with
      | none => exact absurd (List.get?_eq_none.mp h) (by omega)
      | some l => exact ⟨l, rfl⟩
    by_cases hcond : untitledCond content = true
    · exact ⟨"Untitled", findTitle_of_cond_true file content hcond⟩
    · have hcond' : untitledCond content = false := Bool.not_eq_true _ ▸ hcond
      rw [findTitle_of_cond_false file content hcond', hext, hl]
      exact ⟨stripTitle l, rfl⟩

/-- Witness for C10: a two-line notebook file reaches the error branch;
an eight-line one titles. -/
theorem claim_C10_witness :
    findTitle "short.ipynb" "cells\nmore" = .typeError ∧
    ∃ t, findTitle "long.ipynb" notebookTitleText = .title t :=
  ⟨claim_C10.1 "short.ipynb" "cells\nmore" rfl (by decide) (by decide),
   claim_C10.2 "long.ipynb" notebookTitleText rfl (by decide)⟩

/-! ### TOC and readme generation (`customizeJupyterBook`,
`writeForEachNotebook`, `writeSingleNotebook`, `writeToReadme`)

`path.join('.', ...)` normalizes the leading `.` away, so the fixed paths
are `_data/toc.yml`, `content` and `content/<entry>`.  `fs.writeFileSync`
calls are modelled by recording `(path, content)` pairs in write order;
since every read of a run happens before the only write into the same
directory (listings are read before that chapter's readme is written, and
the TOC lands in `_data`, which is never read), the recorded trace equals
the filesystem effect for duplicate-free listings. -/

/-- The context object handed to `customizeJupyterBook`; `chapterNames`
is `none` when the property is absent (falsy). -/
structure Context where
  chapterNames : Option (List String)
  deriving DecidableEq

/-- Embedding of `findTitle(file, filePath)` including the `readFileSync` it performs:
`error` is a thrown read error or the `TypeError` of the unguarded
`lines[6].replace`; `ok none` is a returned `undefined`. -/
def findTitleFS (fs : FS) (file filePath : String) : Except String (Option String) :=
  match fs.readFileE filePath with
  | .error m => .error m
  | .ok data =>
    match findTitle file data with
    | .title t => .ok (some t)
    | .jsUndefined => .ok none
    | .typeError => .error "Cannot read properties of undefined (reading replace)"

/-- Template interpolation of a possibly-`undefined` value. -/
def renderJS (o : Option String) : String := o.getD "undefined"

/-- The `notebooks.forEach` loop of `writeForEachNotebook`: skip names
containing `readme`, emit one section stanza per remaining entry.  There
is no `try` here, so a throw aborts the remaining iterations. -/
def writeForEachNotebookGo (fs : FS) (chapter notebookDir : String) :
    List String → String → Except String String
  | [], content => .ok content
  | file :: rest, content =>
    if containsStr "readme" file then
      writeForEachNotebookGo fs chapter notebookDir rest content
    else
      match findTitleFS fs file (pathJoin notebookDir file) with
      | .error m => .error m
      | .ok t =>
        writeForEachNotebookGo fs chapter notebookDir rest
          (content ++ "  - title: " ++ renderJS t ++ "\n    url: " ++
            toLowerCase chapter ++ "/" ++ toLowerCase (getSlicedFilename (basename file)) ++ "\n")

/-- Embedding of `writeForEachNotebook(chapter, notebookDir)`. -/
def writeForEachNotebook (fs : FS) (chapter notebookDir : String) : Except String String :=
  match fs.readdirE notebookDir with
  | .error m => .error m
  | .ok notebooks => writeForEachNotebookGo fs chapter notebookDir notebooks ""

/-- Embedding of `writeSingleNotebook(notebookDir, file)`: one flat TOC stanza, no
`readme` filter. -/
def writeSingleNotebook (fs : FS) (notebookDir file : String) : Except String String :=
  match findTitleFS fs file (pathJoin notebookDir file) with
  | .error m => .error m
  | .ok t =>
    .ok ("- title: " ++ renderJS t ++ "\n  url: " ++
      toLowerCase (getSlicedFilename (basename file)) ++ "\n")

/-- The `files.forEach` loop of `writeToReadme`: skip names containing
`readme`, emit one Markdown link per remaining entry (the raw entry name
is the link target). -/
def writeToReadmeGo (fs : FS) (contentFilePath : String) :
    List String → String → Except String String
  | [], fileContent => .ok fileContent
  | f :: rest, fileContent =>
    if containsStr "readme" f then writeToReadmeGo fs contentFilePath rest fileContent
    else
      match findTitleFS fs f (pathJoin contentFilePath f) with
      | .error m => .error m
      | .ok t =>
        writeToReadmeGo fs contentFilePath rest
          (fileContent ++ "- [" ++ renderJS t ++ "](" ++ f ++ ")\n")

/-- Embedding of `writeToReadme(contentFilePath, file)`: build the chapter's readme
and (modelled as the returned pair) write it to
`content/<file>/readme.md`. -/
def writeToReadme (fs : FS) (contentFilePath file : String) : Except String (String × String) :=
  match fs.readdirE contentFilePath with
  | .error m => .error m
  | .ok files =>
    match writeToReadmeGo fs contentFilePath files "## Notebooks in this Chapter\n" with
    | .error m => .error m
    | .ok fc => .ok (pathJoin (pathJoin "content" file) "readme.md", fc)

/-- The state threaded through the `bookContents.forEach` loop of
`customizeJupyterBook`: the TOC text built so far, the chapter-name
index, the readme writes already performed and the `console.log` lines of
caught per-entry errors. -/
structure RunState where
  toc : String
  idx : Nat
  writes : List (String × String)
  logs : List String
  deriving DecidableEq

/-- The chapter header stanza of the TOC. -/
def chapterStanza (chapterTitle file : String) : String :=
  "- title: " ++ chapterTitle ++ "\n  url: " ++ file ++
    "/readme\n  not_numbered: true\n  expand_sections: true\n  sections: \n"

/-- One iteration of the `bookContents.forEach` loop, with its
`try`/`catch`: state committed before a throw survives (the chapter
header is appended before the sections are computed, the sections before
the readme write), and a caught error only logs. -/
def processEntry (fs : FS) (ctx : Context) (st : RunState) (file : String) : RunState :=
  match fs.statE (pathJoin "content" file) with
  | .error m => { st with logs := st.logs ++ [m] }
  | .ok isDir =>
    if isDir then
      match ctx.chapterNames with
      | none => st
      | some names =>
        let st1 := { st with
          toc := st.toc ++ chapterStanza (renderJS (names.get? st.idx)) file }
        match writeForEachNotebook fs file (pathJoin "content" file) with
        | .error m => { st1 with logs := st1.logs ++ [m] }
        | .ok secs =>
          let st2 := { st1 with toc := st1.toc ++ secs }
          match writeToReadme fs (pathJoin "content" file) file with
          | .error m => { st2 with logs := st2.logs ++ [m] }
          | .ok w => { st2 with writes := st2.writes ++ [w], idx := st2.idx + 1 }
    else
      match writeSingleNotebook fs "content" file with
      | .error m => { st with logs := st.logs ++ [m] }
      | .ok s => { st with toc := st.toc ++ s }

/-- The observable outcome of a `customizeJupyterBook` run: the files it
writes (readmes in loop order, then the TOC) and its error logs. -/
structure BookRunResult where
  writes : List (String × String)
  logs : List String
  deriving DecidableEq

/-- Embedding of `customizeJupyterBook(context)`.  The unguarded
`readdirSync('content')` throw propagates to the caller
(`buildCustomBook` catches it there). -/
def customizeJupyterBook (fs : FS) (ctx : Context) : Except String BookRunResult :=
  match fs.readdirE "content" with
  | .error m => .error m
  | .ok bookContents =>
    let st := bookContents.foldl (processEntry fs ctx) ⟨"", 0, [], []⟩
    .ok ⟨st.writes ++ [("_data/toc.yml", st.toc)], st.logs⟩

/-! ### Claim C5: the concrete two-entry book -/

/-- The book of C5: `content/ch1/intro.md` (`# Intro`) and
`content/standalone.md` (`# Standalone`). -/
def fsBook : FS :=
  { dirs := [("content", ["ch1", "standalone.md"]), ("content/ch1", ["intro.md"]), ("_data", [])],
    files := [("content/ch1/intro.md", "# Intro"), ("content/standalone.md", "# Standalone")] }

/-- A context supplying one chapter name. -/
def ctxBook : Context := ⟨some ["Chapter One"]⟩

/-- The TOC text the run produces. -/
def tocBookText : String :=
  "- title: Chapter One\n  url: ch1/readme\n  not_numbered: true\n  expand_sections: true\n  sections: \n  - title: Intro\n    url: ch1/intro\n- title: Standalone\n  url: standalone\n"

/-- The readme text the run produces for `ch1`. -/
def readmeBookText : String := "## Notebooks in this Chapter\n- [Intro](intro.md)\n"

/-- C5: on the two-entry book, the TOC build writes exactly the TOC and
the `ch1` readme; the TOC contains the chapter stanza with url
`ch1/readme`, the nested `Intro` entry with url `ch1/intro` and the flat
`Standalone` entry with url `standalone`; the readme contains the link
`[Intro](intro.md)`. -/
theorem claim_C5 :
    customizeJupyterBook fsBook ctxBook =
      .ok ⟨[("content/ch1/readme.md", readmeBookText), ("_data/toc.yml", tocBookText)], []⟩ ∧
    containsStr "  url: ch1/readme\n" tocBookText = true ∧
    containsStr "  - title: Intro\n    url: ch1/intro\n" tocBookText = true ∧
    containsStr "- title: Standalone\n  url: standalone\n" tocBookText = true ∧
    containsStr "[Intro](intro.md)" readmeBookText = true :=
  ⟨rfl, by decide, by decide, by decide, by decide⟩

/-! ### Claim C8: applying a run's writes back to the filesystem

`FS.applyWrite` is the filesystem effect of one `writeFileSync`: the file
content is created or replaced, and the file's name appears (once) at the
end of its parent directory's listing when it was absent. -/

/-- Is the string free of `/`?  Entry names produced by `readdir` always
are. -/
def noSlash (s : String) : Bool := s.data.all (fun c => !(c == '/'))

/-- Split a path at its last `/` into parent directory and entry name. -/
def splitLastSlash (p : String) : String × String :=
  let rev := p.data.reverse
  let nameRev := rev.takeWhile (fun c => !(c == '/'))
  (⟨((rev.drop nameRev.length).drop 1).reverse⟩, ⟨nameRev.reverse⟩)

/-- The filesystem after one `writeFileSync(path, content)`. -/
def FS.applyWrite (fs : FS) (w : String × String) : FS :=
  let parent := (splitLastSlash w.1).1
  let name := (splitLastSlash w.1).2
  { dirs := fs.dirs.map (fun e =>
      if e.1 = parent ∧ ¬ name ∈ e.2 then (e.1, e.2 ++ [name]) else e),
    -- prepending shadows any earlier entry for the same path under
    -- `lookupS`, which is exactly an overwrite
    files := (w.1, w.2) :: fs.files }

/-- The filesystem after a sequence of writes, applied in order. -/
def FS.applyWrites (fs : FS) (ws : List (String × String)) : FS :=
  ws.foldl FS.applyWrite fs

/-! #### Lookup lemmas for `applyWrite` -/

/-- Lookup through the directory update of `applyWrite`:
keys are unchanged, and the found value gains `name` exactly when the key
is the write's parent and `name` was absent. -/
theorem lookupS_upd (parent name : String) (d : List (String × List String)) (q : String) :
    lookupS q (d.map (fun e =>
        if e.1 = parent ∧ ¬ name ∈ e.2 then (e.1, e.2 ++ [name]) else e)) =
      (lookupS q d).map (fun l => if q = parent ∧ ¬ name ∈ l then l ++ [name] else l) := by
  induction d with
  | nil => rfl
  | cons e rest ih =>
    simp only [List.map_cons, lookupS]
    by_cases hc : e.1 = parent ∧ ¬ name ∈ e.2
    · rw [if_pos hc]
      by_cases he : e.1 = q
      · subst he
        rw [if_pos rfl, if_pos rfl, Option.map_some', if_pos hc]
      · rw [if_neg he, if_neg he, ih]
    · rw [if_neg hc]
      by_cases he : e.1 = q
      · subst he
        rw [if_pos rfl, if_pos rfl, Option.map_some', if_neg hc]
      · rw [if_neg he, if_neg he, ih]

/-- File lookups away from the written path are unchanged. -/
theorem applyWrite_files_lookup (fs : FS) (w : String × String) (q : String) (h : q ≠ w.1) :
    lookupS q (fs.applyWrite w).files = lookupS q fs.files := by
  show (if w.1 = q then some w.2 else lookupS q fs.files) = lookupS q fs.files
  rw [if_neg (fun hq : w.1 = q => h hq.symm)]

/-- Directory lookup after one write. -/
theorem applyWrite_dirs_lookup (fs : FS) (w : String × String) (q : String) :
    lookupS q (fs.applyWrite w).dirs =
      (lookupS q fs.dirs).map (fun l =>
        if q = (splitLastSlash w.1).1 ∧ ¬ (splitLastSlash w.1).2 ∈ l
        then l ++ [(splitLastSlash w.1).2] else l) :=
  lookupS_upd (splitLastSlash w.1).1 (splitLastSlash w.1).2 fs.dirs q

/-- Directory lookup after one write, at a path that was absent. -/
theorem applyWrite_dirs_lookup_none (fs : FS) (w : String × String) (q : String)
    (h : lookupS q fs.dirs = none) : lookupS q (fs.applyWrite w).dirs = none := by
  rw [applyWrite_dirs_lookup, h]
  rfl

/-- Directory lookup after one write, at a path that was present. -/
theorem applyWrite_dirs_lookup_some (fs : FS) (w : String × String) (q : String)
    (l : List String) (h : lookupS q fs.dirs = some l) :
    lookupS q (fs.applyWrite w).dirs =
      some (if q = (splitLastSlash w.1).1 ∧ ¬ (splitLastSlash w.1).2 ∈ l
        then l ++ [(splitLastSlash w.1).2] else l) := by
  rw [applyWrite_dirs_lookup, h, Option.map_some']

/-- Whether a path is a directory never changes under writes. -/
theorem applyWrite_dirs_isSome (fs : FS) (w : String × String) (q : String) :
    (lookupS q (fs.applyWrite w).dirs).isSome = (lookupS q fs.dirs).isSome := by
  rw [applyWrite_dirs_lookup]
  cases lookupS q fs.dirs <;> rfl

/-- Whether a path is a directory never changes under write sequences. -/
theorem applyWrites_dirs_isSome (ws : List (String × String)) :
    ∀ (fs : FS) (q : String),
      (lookupS q (fs.applyWrites ws).dirs).isSome = (lookupS q fs.dirs).isSome := by
  induction ws with
  | nil => intro fs q; rfl
  | cons w rest ih =>
    intro fs q
    show (lookupS q ((fs.applyWrite w).applyWrites rest).dirs).isSome = _
    rw [ih (fs.applyWrite w) q, applyWrite_dirs_isSome]

/-- File lookups away from every written path are unchanged. -/
theorem applyWrites_files_lookup (ws : List (String × String)) :
    ∀ (fs : FS) (q : String), (∀ w ∈ ws, q ≠ w.1) →
      lookupS q (fs.applyWrites ws).files = lookupS q fs.files := by
  induction ws with
  | nil => intro fs q _; rfl
  | cons w rest ih =>
    intro fs q h
    show lookupS q ((fs.applyWrite w).applyWrites rest).files = _
    rw [ih (fs.applyWrite w) q (fun v hv => h v (List.mem_cons_of_mem w hv)),
      applyWrite_files_lookup fs w q (h w (List.mem_cons_self w rest))]

/-- Directory listings whose path is no write's parent are unchanged. -/
theorem applyWrites_dirs_lookup_of_notparent (ws : List (String × String)) :
    ∀ (fs : FS) (q : String), (∀ w ∈ ws, (splitLastSlash w.1).1 ≠ q) →
      lookupS q (fs.applyWrites ws).dirs = lookupS q fs.dirs := by
  induction ws with
  | nil => intro fs q _; rfl
  | cons w rest ih =>
    intro fs q h
    show lookupS q ((fs.applyWrite w).applyWrites rest).dirs = _
    rw [ih (fs.applyWrite w) q (fun v hv => h v (List.mem_cons_of_mem w hv)),
      applyWrite_dirs_lookup]
    have hq : ¬ q = (splitLastSlash w.1).1 :=
      fun hqe => h w (List.mem_cons_self w rest) hqe.symm
    cases lookupS q fs.dirs with
    | none => rfl
    | some l => rw [Option.map_some', if_neg (fun hc => hq hc.1)]

/-- Directory-listing evolution at `q` under writes all of whose
`q`-parented names are `readme.md`: the listing is unchanged, or gains a
single trailing `readme.md`. -/
theorem applyWrites_dirs_evolution (ws : List (String × String)) :
    ∀ (fs0 g : FS) (q : String),
      (∀ w ∈ ws, (splitLastSlash w.1).1 = q → (splitLastSlash w.1).2 = "readme.md") →
      (lookupS q g.dirs = lookupS q fs0.dirs ∨
        ∃ l, lookupS q fs0.dirs = some l ∧ lookupS q g.dirs = some (l ++ ["readme.md"])) →
      (lookupS q (g.applyWrites ws).dirs = lookupS q fs0.dirs ∨
        ∃ l, lookupS q fs0.dirs = some l ∧
          lookupS q (g.applyWrites ws).dirs = some (l ++ ["readme.md"])) := by
  induction ws with
  | nil => intro fs0 g q _ hinv; exact hinv
  | cons w rest ih =>
    intro fs0 g q h hinv
    show (lookupS q ((g.applyWrite w).applyWrites rest).dirs = _ ∨ _)
    refine ih fs0 (g.applyWrite w) q (fun v hv => h v (List.mem_cons_of_mem w hv)) ?_
    rcases hinv with heq | ⟨l, hl0, hlg⟩
    · cases hfs : lookupS q fs0.dirs with
      | none => exact Or.inl (applyWrite_dirs_lookup_none g w q (heq.trans hfs))
      | some l =>
        rw [applyWrite_dirs_lookup_some g w q l (heq.trans hfs)]
        by_cases hq : q = (splitLastSlash w.1).1
        · have hname : (splitLastSlash w.1).2 = "readme.md" :=
            h w (List.mem_cons_self w rest) hq.symm
          by_cases hmem : (splitLastSlash w.1).2 ∈ l
          · rw [if_neg (fun hc => hc.2 hmem)]
            exact Or.inl rfl
          · rw [if_pos ⟨hq, hmem⟩]
            exact Or.inr ⟨l, rfl, by rw [hname]⟩
        · rw [if_neg (fun hc => hq hc.1)]
          exact Or.inl rfl
    · rw [applyWrite_dirs_lookup_some g w q (l ++ ["readme.md"]) hlg]
      by_cases hq : q = (splitLastSlash w.1).1
      · have hname : (splitLastSlash w.1).2 = "readme.md" :=
          h w (List.mem_cons_self w rest) hq.symm
        have hmem : (splitLastSlash w.1).2 ∈ l ++ ["readme.md"] := by
          rw [hname]
          exact List.mem_append_right l (List.mem_cons_self "readme.md" [])
        rw [if_neg (fun hc => hc.2 hmem)]
        exact Or.inr ⟨l, hl0, rfl⟩
      · rw [if_neg (fun hc => hq hc.1)]
        exact Or.inr ⟨l, hl0, rfl⟩

/-! #### Accessor agreement under writes -/

/-- The accessor `statSync` is unchanged at paths no write touches. -/
theorem applyWrites_statE (fs : FS) (ws : List (String × String)) (p : String)
    (h : ∀ w ∈ ws, p ≠ w.1) : (fs.applyWrites ws).statE p = fs.statE p := by
  unfold FS.statE
  rw [applyWrites_dirs_isSome ws fs p, applyWrites_files_lookup ws fs p h]

/-- The accessor `readFileSync` is unchanged at paths no write touches. -/
theorem applyWrites_readFileE (fs : FS) (ws : List (String × String)) (p : String)
    (h : ∀ w ∈ ws, p ≠ w.1) : (fs.applyWrites ws).readFileE p = fs.readFileE p := by
  unfold FS.readFileE
  rw [applyWrites_dirs_isSome ws fs p, applyWrites_files_lookup ws fs p h]

/-- The accessor `readdirSync` is unchanged at paths that are no write's parent. -/
theorem applyWrites_readdirE_of_notparent (fs : FS) (ws : List (String × String)) (p : String)
    (h : ∀ w ∈ ws, (splitLastSlash w.1).1 ≠ p) :
    (fs.applyWrites ws).readdirE p = fs.readdirE p := by
  unfold FS.readdirE
  rw [applyWrites_dirs_lookup_of_notparent ws fs p h]

/-- The accessor `readdirSync` evolution at a path whose only incoming writes are
`readme.md` creations: same listing, or the listing plus a trailing
`readme.md`. -/
theorem applyWrites_readdirE_evolution (fs : FS) (ws : List (String × String)) (q : String)
    (h : ∀ w ∈ ws, (splitLastSlash w.1).1 = q → (splitLastSlash w.1).2 = "readme.md") :
    (fs.applyWrites ws).readdirE q = fs.readdirE q ∨
      ∃ l, fs.readdirE q = .ok l ∧ (fs.applyWrites ws).readdirE q = .ok (l ++ ["readme.md"]) := by
  have hev := applyWrites_dirs_evolution ws fs fs q h (Or.inl rfl)
  unfold FS.readdirE
  rcases hev with heq | ⟨l, hl0, hlg⟩
  · rw [heq]; exact Or.inl rfl
  · rw [hl0, hlg]; exact Or.inr ⟨l, rfl, rfl⟩

/-! #### Path decomposition lemmas -/

/-- A string is its character data. -/
theorem mk_data (s : String) : String.mk s.data = s := String.ext rfl

/-- Data of a joined path. -/
theorem pathJoin_data (a b : String) : (pathJoin a b).data = a.data ++ '/' :: b.data := by
  show ((a ++ "/") ++ b).data = _
  rw [data_append, data_append, List.append_assoc]
  rfl

/-- The function `takeWhile` stops exactly at the first failing element. -/
theorem takeWhile_append_mid (p : Char → Bool) (l1 l2 : List Char) (x : Char)
    (h1 : ∀ c ∈ l1, p c = true) (h2 : p x = false) :
    (l1 ++ x :: l2).takeWhile p = l1 := by
  induction l1 with
  | nil => simp [List.takeWhile, h2]
  | cons a as ih =>
    simp only [List.cons_append, List.takeWhile]
    rw [h1 a (List.mem_cons_self a as)]
    simp [ih (fun c hc => h1 c (List.mem_cons_of_mem a hc))]

/-- Members of a slash-free string are not `/`. -/
theorem noSlash_mem (s : String) (h : noSlash s = true) (c : Char) (hc : c ∈ s.data) :
    ¬ c = '/' := by
  unfold noSlash at h
  rw [List.all_eq_true] at h
  have hcc := h c hc
  intro he
  rw [he] at hcc
  simp at hcc

/-- Data of a doubly joined path, right-associated. -/
theorem pathJoin2_data (a b c : String) :
    (pathJoin (pathJoin a b) c).data = a.data ++ '/' :: (b.data ++ '/' :: c.data) := by
  rw [pathJoin_data, pathJoin_data, List.append_assoc]
  rfl

/-- Splitting a join with a slash-free last segment recovers both parts. -/
theorem splitLastSlash_pathJoin (a b : String) (hb : noSlash b = true) :
    splitLastSlash (pathJoin a b) = (a, b) := by
  simp only [splitLastSlash]
  have hrev : (pathJoin a b).data.reverse = b.data.reverse ++ '/' :: a.data.reverse := by
    rw [pathJoin_data, List.reverse_append, List.reverse_cons, List.append_assoc]
    rfl
  rw [hrev]
  have htake : (b.data.reverse ++ '/' :: a.data.reverse).takeWhile (fun c => !(c == '/')) =
      b.data.reverse := by
    refine takeWhile_append_mid _ _ _ _ ?_ (by simp)
    intro c hc
    have hne := noSlash_mem b hb c (List.mem_reverse.mp hc)
    simp [hne]
  rw [htake, List.drop_left, List.reverse_reverse]
  show (String.mk (('/' :: a.data.reverse).drop 1).reverse, String.mk b.data) = (a, b)
  rw [mk_data]
  show (String.mk a.data.reverse.reverse, b) = (a, b)
  rw [List.reverse_reverse, mk_data]

/-- Strings with different first characters differ. -/
theorem ne_of_head (x y : String) (cx cy : Char) (hx : x.data.head? = some cx)
    (hy : y.data.head? = some cy) (hne : cx ≠ cy) : x ≠ y := by
  intro h
  rw [h, hy] at hx
  exact hne (Option.some.inj hx).symm

/-- A `content/<x>` path is never the TOC path. -/
theorem pathJoin_content_ne_toc (x : String) : pathJoin "content" x ≠ "_data/toc.yml" := by
  refine ne_of_head _ _ 'c' '_' ?_ rfl (by decide)
  rw [pathJoin_data]
  rfl

/-- The string `_data` is never a `content/<x>` path. -/
theorem data_ne_pathJoin_content (x : String) : "_data" ≠ pathJoin "content" x := by
  refine ne_of_head _ _ '_' 'c' rfl ?_ (by decide)
  rw [pathJoin_data]
  rfl

/-- A `content/<x>` path is never `content` itself. -/
theorem pathJoin_content_ne_content (x : String) : pathJoin "content" x ≠ "content" := by
  intro h
  have h2 : (pathJoin "content" x).data = ("content" : String).data := congrArg String.data h
  rw [pathJoin_data] at h2
  have h2' : ("content" : String).data ++ '/' :: x.data =
      ("content" : String).data ++ ([] : List Char) := by
    rw [List.append_nil]
    exact h2
  exact List.cons_ne_nil '/' x.data (List.append_cancel_left h2')

/-- A `content/<x>/<f>` path is never the TOC path. -/
theorem pathJoin2_ne_toc (x f : String) :
    pathJoin (pathJoin "content" x) f ≠ "_data/toc.yml" := by
  refine ne_of_head _ _ 'c' '_' ?_ rfl (by decide)
  rw [pathJoin_data, pathJoin_data]
  rfl

/-- Splitting equal slash-separated concatenations with slash-free heads. -/
theorem slash_split (xs : List Char) : ∀ (ys rest rest' : List Char),
    (∀ u ∈ xs, ¬ u = '/') → (∀ u ∈ ys, ¬ u = '/') →
    xs ++ '/' :: rest = ys ++ '/' :: rest' → xs = ys ∧ rest = rest' := by
  induction xs with
  | nil =>
    intro ys rest rest' _ hy h
    cases ys with
    | nil => exact ⟨rfl, by simpa using h⟩
    | cons y ys' =>
      exfalso
      simp only [List.nil_append, List.cons_append] at h
      exact hy y (List.mem_cons_self y ys') (List.cons.inj h).1.symm
  | cons a as ih =>
    intro ys rest rest' hx hy h
    cases ys with
    | nil =>
      exfalso
      simp only [List.cons_append, List.nil_append] at h
      exact hx a (List.mem_cons_self a as) (List.cons.inj h).1
    | cons y ys' =>
      simp only [List.cons_append] at h
      obtain ⟨hay, htail⟩ := List.cons.inj h
      obtain ⟨h1, h2⟩ := ih ys' rest rest' (fun u hu => hx u (List.mem_cons_of_mem a hu))
        (fun u hu => hy u (List.mem_cons_of_mem y hu)) htail
      exact ⟨by rw [hay, h1], h2⟩

/-- A `content/<x>` path with slash-free `x` is never a chapter readme
path. -/
theorem pathJoin_content_ne_readme (x c : String) (hx : noSlash x = true) :
    pathJoin "content" x ≠ pathJoin (pathJoin "content" c) "readme.md" := by
  intro h
  have h2 := congrArg String.data h
  rw [pathJoin2_data, pathJoin_data] at h2
  have h4 := (List.cons.inj (List.append_cancel_left h2)).2
  have hmem : '/' ∈ x.data := by
    rw [h4]
    exact List.mem_append_right c.data (List.mem_cons_self '/' _)
  exact noSlash_mem x hx '/' hmem rfl

/-- Equality of a chapter-file path with a chapter readme path forces the
chapters equal and the file to be `readme.md`. -/
theorem pathJoin2_eq_readme (x c f : String) (hx : noSlash x = true) (hc : noSlash c = true)
    (h : pathJoin (pathJoin "content" x) f = pathJoin (pathJoin "content" c) "readme.md") :
    x = c ∧ f = "readme.md" := by
  have h2 := congrArg String.data h
  rw [pathJoin2_data, pathJoin2_data] at h2
  have h3 := (List.cons.inj (List.append_cancel_left h2)).2
  obtain ⟨h4, h5⟩ := slash_split x.data c.data f.data ("readme.md" : String).data
    (fun u hu => noSlash_mem x hx u hu) (fun u hu => noSlash_mem c hc u hu) h3
  exact ⟨String.ext h4, String.ext h5⟩

/-! #### Which paths a run writes -/

/-- A successful `writeToReadme` writes the chapter's readme path. -/
theorem writeToReadme_fst (fs : FS) (p file : String) (w : String × String)
    (h : writeToReadme fs p file = .ok w) :
    w.1 = pathJoin (pathJoin "content" file) "readme.md" := by
  unfold writeToReadme at h
  cases hr : fs.readdirE p with
  | error m => rw [hr] at h; exact Except.noConfusion h
  | ok files =>
    rw [hr] at h
    have h' : (match writeToReadmeGo fs p files "## Notebooks in this Chapter\n" with
        | Except.error m => (Except.error m : Except String (String × String))
        | Except.ok fc => Except.ok (pathJoin (pathJoin "content" file) "readme.md", fc)) =
        Except.ok w := h
    cases hg : writeToReadmeGo fs p files "## Notebooks in this Chapter\n" with
    | error m =>
      rw [hg] at h'
      exact Except.noConfusion h'
    | ok fc =>
      rw [hg] at h'
      rw [← Except.ok.inj h']

/-- One loop iteration appends either nothing or its own chapter's readme
write. -/
theorem processEntry_writes (fs : FS) (ctx : Context) (st : RunState) (x : String) :
    (processEntry fs ctx st x).writes = st.writes ∨
    ∃ v, (processEntry fs ctx st x).writes =
      st.writes ++ [(pathJoin (pathJoin "content" x) "readme.md", v)] := by
  simp only [processEntry]
  cases fs.statE (pathJoin "content" x) with
  | error m => exact Or.inl rfl
  | ok isDir =>
    cases isDir with
    | false =>
      cases writeSingleNotebook fs "content" x with
      | error m => exact Or.inl rfl
      | ok s => exact Or.inl rfl
    | true =>
      cases ctx.chapterNames with
      | none => exact Or.inl rfl
      | some names =>
        cases writeForEachNotebook fs x (pathJoin "content" x) with
        | error m => exact Or.inl rfl
        | ok secs =>
          cases hw : writeToReadme fs (pathJoin "content" x) x with
          | error m => exact Or.inl rfl
          | ok w =>
            refine Or.inr ⟨w.2, ?_⟩
            have hfst := writeToReadme_fst fs (pathJoin "content" x) x w hw
            show st.writes ++ [w] =
              st.writes ++ [(pathJoin (pathJoin "content" x) "readme.md", w.2)]
            rw [← hfst]

/-- Every write the loop accumulates is some listed chapter's readme. -/
theorem foldl_processEntry_writes (fs : FS) (ctx : Context) (L1 : List String) :
    ∀ (st : RunState) (w : String × String),
      w ∈ (L1.foldl (processEntry fs ctx) st).writes →
      w ∈ st.writes ∨ ∃ c ∈ L1, w.1 = pathJoin (pathJoin "content" c) "readme.md" := by
  induction L1 with
  | nil => intro st w hw; exact Or.inl hw
  | cons x rest ih =>
    intro st w hw
    rw [List.foldl_cons] at hw
    rcases ih (processEntry fs ctx st x) w hw with hmem | ⟨c, hc, hp⟩
    · rcases processEntry_writes fs ctx st x with heq | ⟨v, heq⟩
      · rw [heq] at hmem; exact Or.inl hmem
      · rw [heq] at hmem
        rcases List.mem_append.mp hmem with hm1 | hm2
        · exact Or.inl hm1
        · refine Or.inr ⟨x, List.mem_cons_self x rest, ?_⟩
          rw [List.mem_singleton.mp hm2]
    · exact Or.inr ⟨c, List.mem_cons_of_mem x hc, hp⟩

/-! #### The run reads the same answers from the rewritten filesystem -/

/-- The reader `findTitleFS` only depends on the read file. -/
theorem findTitleFS_congr (fs fs2 : FS) (file p : String)
    (h : fs2.readFileE p = fs.readFileE p) :
    findTitleFS fs2 file p = findTitleFS fs file p := by
  unfold findTitleFS
  rw [h]

/-- The section loop agrees when the reads of non-readme entries agree. -/
theorem writeForEachNotebookGo_congr (fs fs2 : FS) (ch dir : String) (entries : List String)
    (h : ∀ f ∈ entries, containsStr "readme" f = false →
      fs2.readFileE (pathJoin dir f) = fs.readFileE (pathJoin dir f)) :
    ∀ acc, writeForEachNotebookGo fs2 ch dir entries acc =
      writeForEachNotebookGo fs ch dir entries acc := by
  induction entries with
  | nil => intro acc; rfl
  | cons f rest ih =>
    intro acc
    simp only [writeForEachNotebookGo]
    by_cases hr : containsStr "readme" f = true
    · rw [if_pos hr, if_pos hr]
      exact ih (fun g hg => h g (List.mem_cons_of_mem f hg)) acc
    · rw [if_neg hr, if_neg hr,
        findTitleFS_congr fs fs2 f (pathJoin dir f)
          (h f (List.mem_cons_self f rest) (Eq.mp (Bool.not_eq_true _) hr))]
      cases findTitleFS fs f (pathJoin dir f) with
      | error m => rfl
      | ok t => exact ih (fun g hg => h g (List.mem_cons_of_mem f hg)) _

/-- A trailing `readme.md` entry is skipped by the section loop. -/
theorem writeForEachNotebookGo_skip (fs : FS) (ch dir : String) (l : List String) :
    ∀ acc, writeForEachNotebookGo fs ch dir (l ++ ["readme.md"]) acc =
      writeForEachNotebookGo fs ch dir l acc := by
  induction l with
  | nil =>
    intro acc
    simp only [List.nil_append, writeForEachNotebookGo]
    rw [if_pos (by decide : containsStr "readme" "readme.md" = true)]
  | cons f rest ih =>
    intro acc
    simp only [List.cons_append, writeForEachNotebookGo]
    by_cases hr : containsStr "readme" f = true
    · rw [if_pos hr, if_pos hr]
      exact ih acc
    · rw [if_neg hr, if_neg hr]
      cases findTitleFS fs f (pathJoin dir f) with
      | error m => rfl
      | ok t => exact ih _

/-- The readme loop agrees when the reads of non-readme entries agree. -/
theorem writeToReadmeGo_congr (fs fs2 : FS) (p : String) (entries : List String)
    (h : ∀ f ∈ entries, containsStr "readme" f = false →
      fs2.readFileE (pathJoin p f) = fs.readFileE (pathJoin p f)) :
    ∀ acc, writeToReadmeGo fs2 p entries acc = writeToReadmeGo fs p entries acc := by
  induction entries with
  | nil => intro acc; rfl
  | cons f rest ih =>
    intro acc
    simp only [writeToReadmeGo]
    by_cases hr : containsStr "readme" f = true
    · rw [if_pos hr, if_pos hr]
      exact ih (fun g hg => h g (List.mem_cons_of_mem f hg)) acc
    · rw [if_neg hr, if_neg hr,
        findTitleFS_congr fs fs2 f (pathJoin p f)
          (h f (List.mem_cons_self f rest) (Eq.mp (Bool.not_eq_true _) hr))]
      cases findTitleFS fs f (pathJoin p f) with
      | error m => rfl
      | ok t => exact ih (fun g hg => h g (List.mem_cons_of_mem f hg)) _

/-- A trailing `readme.md` entry is skipped by the readme loop. -/
theorem writeToReadmeGo_skip (fs : FS) (p : String) (l : List String) :
    ∀ acc, writeToReadmeGo fs p (l ++ ["readme.md"]) acc = writeToReadmeGo fs p l acc := by
  induction l with
  | nil =>
    intro acc
    simp only [List.nil_append, writeToReadmeGo]
    rw [if_pos (by decide : containsStr "readme" "readme.md" = true)]
  | cons f rest ih =>
    intro acc
    simp only [List.cons_append, writeToReadmeGo]
    by_cases hr : containsStr "readme" f = true
    · rw [if_pos hr, if_pos hr]
      exact ih acc
    · rw [if_neg hr, if_neg hr]
      cases findTitleFS fs f (pathJoin p f) with
      | error m => rfl
      | ok t => exact ih _

/-- The builder `writeForEachNotebook` agrees when the listing agrees up to a
trailing `readme.md` and the non-readme reads agree. -/
theorem writeForEachNotebook_congr (fs fs2 : FS) (ch p : String)
    (hdir : fs2.readdirE p = fs.readdirE p ∨
      ∃ l, fs.readdirE p = .ok l ∧ fs2.readdirE p = .ok (l ++ ["readme.md"]))
    (h : ∀ f, containsStr "readme" f = false →
      fs2.readFileE (pathJoin p f) = fs.readFileE (pathJoin p f)) :
    writeForEachNotebook fs2 ch p = writeForEachNotebook fs ch p := by
  unfold writeForEachNotebook
  rcases hdir with heq | ⟨l, hl, hl2⟩
  · rw [heq]
    cases fs.readdirE p with
    | error m => rfl
    | ok notebooks =>
      exact writeForEachNotebookGo_congr fs fs2 ch p notebooks (fun f _ hrf => h f hrf) ""
  · rw [hl, hl2]
    show writeForEachNotebookGo fs2 ch p (l ++ ["readme.md"]) "" =
      writeForEachNotebookGo fs ch p l ""
    rw [writeForEachNotebookGo_skip fs2 ch p l ""]
    exact writeForEachNotebookGo_congr fs fs2 ch p l (fun f _ hrf => h f hrf) ""

/-- The builder `writeToReadme` agrees under the same conditions. -/
theorem writeToReadme_congr (fs fs2 : FS) (p file : String)
    (hdir : fs2.readdirE p = fs.readdirE p ∨
      ∃ l, fs.readdirE p = .ok l ∧ fs2.readdirE p = .ok (l ++ ["readme.md"]))
    (h : ∀ f, containsStr "readme" f = false →
      fs2.readFileE (pathJoin p f) = fs.readFileE (pathJoin p f)) :
    writeToReadme fs2 p file = writeToReadme fs p file := by
  unfold writeToReadme
  rcases hdir with heq | ⟨l, hl, hl2⟩
  · rw [heq]
    cases fs.readdirE p with
    | error m => rfl
    | ok files =>
      show (match writeToReadmeGo fs2 p files "## Notebooks in this Chapter\n" with
          | Except.error m => (Except.error m : Except String (String × String))
          | Except.ok fc => Except.ok (pathJoin (pathJoin "content" file) "readme.md", fc)) =
        (match writeToReadmeGo fs p files "## Notebooks in this Chapter\n" with
          | Except.error m => Except.error m
          | Except.ok fc => Except.ok (pathJoin (pathJoin "content" file) "readme.md", fc))
      rw [writeToReadmeGo_congr fs fs2 p files (fun f _ hrf => h f hrf)
        "## Notebooks in this Chapter\n"]
  · rw [hl, hl2]
    show (match writeToReadmeGo fs2 p (l ++ ["readme.md"]) "## Notebooks in this Chapter\n" with
        | Except.error m => (Except.error m : Except String (String × String))
        | Except.ok fc => Except.ok (pathJoin (pathJoin "content" file) "readme.md", fc)) =
      (match writeToReadmeGo fs p l "## Notebooks in this Chapter\n" with
        | Except.error m => Except.error m
        | Except.ok fc => Except.ok (pathJoin (pathJoin "content" file) "readme.md", fc))
    rw [writeToReadmeGo_skip fs2 p l "## Notebooks in this Chapter\n",
      writeToReadmeGo_congr fs fs2 p l (fun f _ hrf => h f hrf)
        "## Notebooks in this Chapter\n"]

/-- The builder `writeSingleNotebook` agrees when its one read agrees. -/
theorem writeSingleNotebook_congr (fs fs2 : FS) (dir f : String)
    (h : fs2.readFileE (pathJoin dir f) = fs.readFileE (pathJoin dir f)) :
    writeSingleNotebook fs2 dir f = writeSingleNotebook fs dir f := by
  unfold writeSingleNotebook
  rw [findTitleFS_congr fs fs2 f (pathJoin dir f) h]

/-- One loop iteration agrees when all its filesystem answers agree. -/
theorem processEntry_congr (fs fs2 : FS) (ctx : Context) (x : String)
    (hstat : fs2.statE (pathJoin "content" x) = fs.statE (pathJoin "content" x))
    (hsingle : fs2.readFileE (pathJoin "content" x) = fs.readFileE (pathJoin "content" x))
    (hdir : fs2.readdirE (pathJoin "content" x) = fs.readdirE (pathJoin "content" x) ∨
      ∃ l, fs.readdirE (pathJoin "content" x) = .ok l ∧
        fs2.readdirE (pathJoin "content" x) = .ok (l ++ ["readme.md"]))
    (hchread : ∀ f, containsStr "readme" f = false →
      fs2.readFileE (pathJoin (pathJoin "content" x) f) =
        fs.readFileE (pathJoin (pathJoin "content" x) f)) :
    ∀ st, processEntry fs2 ctx st x = processEntry fs ctx st x := by
  intro st
  simp only [processEntry]
  rw [hstat, writeSingleNotebook_congr fs fs2 "content" x hsingle,
    writeForEachNotebook_congr fs fs2 x (pathJoin "content" x) hdir hchread,
    writeToReadme_congr fs fs2 (pathJoin "content" x) x hdir hchread]

/-- Folds of pointwise-equal steps agree. -/
theorem foldl_congr_mem {α β : Type} (f g : β → α → β) (l : List α)
    (h : ∀ (st : β) (x : α), x ∈ l → f st x = g st x) :
    ∀ st, l.foldl f st = l.foldl g st := by
  induction l with
  | nil => intro st; rfl
  | cons x rest ih =>
    intro st
    rw [List.foldl_cons, List.foldl_cons, h st x (List.mem_cons_self x rest)]
    exact ih (fun st' y hy => h st' y (List.mem_cons_of_mem x hy)) (g st x)

/-- C8: re-running the TOC build after applying the first run's writes
back to the filesystem (the readmes now present in the chapter
directories, the TOC in `_data`) produces the identical result — every
output file is overwritten with byte-identical content.  The hypotheses
say only that the first run succeeded on a `content` listing whose entry
names are slash-free, which every real directory listing satisfies. -/
theorem claim_C8 (fs : FS) (ctx : Context) (L : List String) (res : BookRunResult)
    (hrun : customizeJupyterBook fs ctx = .ok res)
    (hL : fs.readdirE "content" = .ok L)
    (h1 : ∀ x ∈ L, noSlash x = true) :
    customizeJupyterBook (fs.applyWrites res.writes) ctx = .ok res := by
  have hrun2 : customizeJupyterBook fs ctx =
      .ok ⟨(L.foldl (processEntry fs ctx) ⟨"", 0, [], []⟩).writes ++
        [("_data/toc.yml", (L.foldl (processEntry fs ctx) ⟨"", 0, [], []⟩).toc)],
        (L.foldl (processEntry fs ctx) ⟨"", 0, [], []⟩).logs⟩ := by
    unfold customizeJupyterBook
    rw [hL]
  have hres := Except.ok.inj (hrun2.symm.trans hrun)
  have hwrites : ∀ w ∈ res.writes,
      w.1 = "_data/toc.yml" ∨ ∃ c ∈ L, w.1 = pathJoin (pathJoin "content" c) "readme.md" := by
    intro w hw
    rw [← hres] at hw
    have hw' : w ∈ (L.foldl (processEntry fs ctx) ⟨"", 0, [], []⟩).writes ++
        [("_data/toc.yml", (L.foldl (processEntry fs ctx) ⟨"", 0, [], []⟩).toc)] := hw
    rcases List.mem_append.mp hw' with hw1 | hw2
    · rcases foldl_processEntry_writes fs ctx L ⟨"", 0, [], []⟩ w hw1 with habs | ⟨c, hc, hp⟩
      · exact absurd habs (List.not_mem_nil w)
      · exact Or.inr ⟨c, hc, hp⟩
    · exact Or.inl (by rw [List.mem_singleton.mp hw2])
  have hsplit : ∀ w ∈ res.writes,
      splitLastSlash w.1 = ("_data", "toc.yml") ∨
      ∃ c ∈ L, splitLastSlash w.1 = (pathJoin "content" c, "readme.md") := by
    intro w hw
    rcases hwrites w hw with h | ⟨c, hc, hp⟩
    · have hsp : splitLastSlash w.1 = splitLastSlash "_data/toc.yml" := by rw [h]
      exact Or.inl (hsp.trans (by decide))
    · refine Or.inr ⟨c, hc, ?_⟩
      rw [hp]
      exact splitLastSlash_pathJoin (pathJoin "content" c) "readme.md" (by decide)
  have hstatAll : ∀ x ∈ L,
      (fs.applyWrites res.writes).statE (pathJoin "content" x) =
        fs.statE (pathJoin "content" x) := by
    intro x hx
    refine applyWrites_statE fs res.writes _ ?_
    intro w hw
    rcases hwrites w hw with h | ⟨c, _, hp⟩
    · rw [h]; exact pathJoin_content_ne_toc x
    · rw [hp]; exact pathJoin_content_ne_readme x c (h1 x hx)
  have hreadSingle : ∀ x ∈ L,
      (fs.applyWrites res.writes).readFileE (pathJoin "content" x) =
        fs.readFileE (pathJoin "content" x) := by
    intro x hx
    refine applyWrites_readFileE fs res.writes _ ?_
    intro w hw
    rcases hwrites w hw with h | ⟨c, _, hp⟩
    · rw [h]; exact pathJoin_content_ne_toc x
    · rw [hp]; exact pathJoin_content_ne_readme x c (h1 x hx)
  have hdirEvol : ∀ x ∈ L,
      (fs.applyWrites res.writes).readdirE (pathJoin "content" x) =
        fs.readdirE (pathJoin "content" x) ∨
      ∃ l, fs.readdirE (pathJoin "content" x) = .ok l ∧
        (fs.applyWrites res.writes).readdirE (pathJoin "content" x) =
          .ok (l ++ ["readme.md"]) := by
    intro x _
    refine applyWrites_readdirE_evolution fs res.writes _ ?_
    intro w hw hpq
    rcases hsplit w hw with h | ⟨c, _, hp⟩
    · exfalso
      have h1' : (splitLastSlash w.1).1 = "_data" := by rw [h]
      rw [h1'] at hpq
      exact data_ne_pathJoin_content x hpq
    · rw [hp]
  have hchRead : ∀ x ∈ L, ∀ f, containsStr "readme" f = false →
      (fs.applyWrites res.writes).readFileE (pathJoin (pathJoin "content" x) f) =
        fs.readFileE (pathJoin (pathJoin "content" x) f) := by
    intro x hx f hf
    refine applyWrites_readFileE fs res.writes _ ?_
    intro w hw
    rcases hwrites w hw with h | ⟨c, hc, hp⟩
    · rw [h]; exact pathJoin2_ne_toc x f
    · rw [hp]
      intro heq
      obtain ⟨_, hfr⟩ := pathJoin2_eq_readme x c f (h1 x hx) (h1 c hc) heq
      rw [hfr] at hf
      exact absurd hf (by decide)
  have hcontent : (fs.applyWrites res.writes).readdirE "content" = fs.readdirE "content" := by
    refine applyWrites_readdirE_of_notparent fs res.writes "content" ?_
    intro w hw
    rcases hsplit w hw with h | ⟨c, _, hp⟩
    · rw [h]; decide
    · rw [hp]; exact pathJoin_content_ne_content c
  have hfold : L.foldl (processEntry (fs.applyWrites res.writes) ctx) ⟨"", 0, [], []⟩ =
      L.foldl (processEntry fs ctx) ⟨"", 0, [], []⟩ :=
    foldl_congr_mem _ _ L
      (fun st x hx => processEntry_congr fs (fs.applyWrites res.writes) ctx x
        (hstatAll x hx) (hreadSingle x hx) (hdirEvol x hx) (hchRead x hx) st) _
  have hrun2' : customizeJupyterBook (fs.applyWrites res.writes) ctx =
      .ok ⟨(L.foldl (processEntry (fs.applyWrites res.writes) ctx) ⟨"", 0, [], []⟩).writes ++
        [("_data/toc.yml",
          (L.foldl (processEntry (fs.applyWrites res.writes) ctx) ⟨"", 0, [], []⟩).toc)],
        (L.foldl (processEntry (fs.applyWrites res.writes) ctx) ⟨"", 0, [], []⟩).logs⟩ := by
    unfold customizeJupyterBook
    rw [hcontent, hL]
  rw [hrun2', hfold, hres]

/-- Witness for C8: the two-entry book of C5, re-run on the filesystem
with its readme and TOC writes applied. -/
theorem claim_C8_witness :
    customizeJupyterBook
      (FS.applyWrites fsBook
        [("content/ch1/readme.md", readmeBookText), ("_data/toc.yml", tocBookText)]) ctxBook =
      .ok ⟨[("content/ch1/readme.md", readmeBookText), ("_data/toc.yml", tocBookText)], []⟩ :=
  claim_C8 fsBook ctxBook ["ch1", "standalone.md"]
    ⟨[("content/ch1/readme.md", readmeBookText), ("_data/toc.yml", tocBookText)], []⟩
    rfl rfl (by decide)

end NotebookConverter
